import Mathlib

/-!
Verification of dexcom_share_to_quest3.py.

This file gives a shallow embedding of the pure logic of the bridge script:
the trend-glyph table, the credential vault (key derivation and the
encrypt/decrypt pair), the OSCQuery discovery pipeline (candidate building,
scoring and selection), endpoint resolution, and the polling loop with its
debounce rule and cycle isolation.

Modelling conventions:
- Python byte strings are List Nat (one Nat per octet).
- Python str values are Lean String; the relevant str methods (strip, lower,
  startswith, substring containment, int parsing) are re-implemented below
  over the character list, matching CPython behaviour on the inputs the
  script handles.
- External library functions (PBKDF2, Fernet, base64 and text codecs) are
  parameters of the definitions that call them; theorems assume only the
  documented contracts of those libraries (output length, round-trip).
- A JSON value that may sit in a metadata field is PyVal.
- Exceptions are modelled with Option / explicit failure constructors.
-/

/-! ## Python string helpers -/

/-- Whitespace characters stripped by the Python str.strip method
(ASCII range). -/
def pyIsSpace (c : Char) : Bool :=
  c = ' ' || c = '\t' || c = '\n' || c = '\r' || c = '\x0b' || c = '\x0c'

/-- Python str.strip: remove leading and trailing whitespace. -/
def pyStrip (s : String) : String :=
  String.mk (((s.data.dropWhile pyIsSpace).reverse.dropWhile pyIsSpace).reverse)

/-- ASCII lower-casing of one character, as Python str.lower does on the
ASCII subset. -/
def asciiLowerChar (c : Char) : Char :=
  if 'A' ≤ c && c ≤ 'Z' then Char.ofNat (c.toNat + 32) else c

/-- Python str.lower on the ASCII subset. -/
def pyLower (s : String) : String :=
  String.mk (s.data.map asciiLowerChar)

/-- List-level startswith test. -/
def startsWithL : List Char → List Char → Bool
  | _, [] => true
  | [], _ :: _ => false
  | h :: hs, n :: ns => h = n && startsWithL hs ns

/-- Python s.startswith(p). -/
def strStartsWith (s p : String) : Bool :=
  startsWithL s.data p.data

/-- List-level substring search. -/
def containsL (needle : List Char) : List Char → Bool
  | [] => needle.isEmpty
  | c :: t => startsWithL (c :: t) needle || containsL needle t

/-- Python substring membership: needle in hay. -/
def strContains (hay needle : String) : Bool :=
  containsL needle.data hay.data

/-- Accumulate a decimal digit string; fails on any non-digit. -/
def digitsToNat (acc : Nat) : List Char → Option Nat
  | [] => some acc
  | c :: cs => if c.isDigit then digitsToNat (acc * 10 + (c.toNat - 48)) cs else Option.none

/-- Python int(s) on a str argument: strip whitespace, optional sign, then
a non-empty run of decimal digits; anything else raises ValueError,
modelled as none. -/
def pyIntOfString (s : String) : Option Int :=
  match (pyStrip s).data with
  | [] => Option.none
  | '+' :: rest => if rest.isEmpty then Option.none else (digitsToNat 0 rest).map (fun n => (n : Int))
  | '-' :: rest => if rest.isEmpty then Option.none else (digitsToNat 0 rest).map (fun n => -(n : Int))
  | l => (digitsToNat 0 l).map (fun n => (n : Int))

/-- A JSON-ish Python value as it can appear in a metadata field. -/
inductive PyVal where
  | none
  | int (n : Int)
  | str (s : String)
  | bool (b : Bool)
  | other
deriving DecidableEq

/-- Python int(v) on a PyVal: ints pass through, bools coerce, strings are
parsed, anything else raises (TypeError), modelled as none. -/
def pyInt : PyVal → Option Int
  | PyVal.none => Option.none
  | PyVal.int n => some n
  | PyVal.bool b => some (if b then 1 else 0)
  | PyVal.str s => pyIntOfString s
  | PyVal.other => Option.none

/-! ## Trend glyphs (source function arrow) -/

/-- Canonical form of a trend name: lower-case it and delete underscores,
hyphens and spaces, mirroring the lower/replace chain in the source. -/
def canonTrend (s : String) : String :=
  String.mk ((s.data.map asciiLowerChar).filter (fun c => !(c = '_' || c = '-' || c = ' ')))

/-- Glyph lookup table of the source, keyed by the canonical trend name;
the fallback of dict.get is the empty string. -/
def trendGlyph (d : String) : String :=
  match d with
  | "doubleup" => "↑↑"
  | "singleup" => "↑"
  | "fortyfiveup" => "↗"
  | "flat" => "→"
  | "fortyfivedown" => "↘"
  | "singledown" => "↓"
  | "doubledown" => "↓↓"
  | _ => ""

/-- Source function arrow(direction): empty result for a falsy argument
(None or the empty string), otherwise the table lookup on the canonical
name. -/
def arrow (direction : Option String) : String :=
  match direction with
  | Option.none => ""
  | some s => if s = "" then "" else trendGlyph (canonTrend s)

/-! ## Vault (derive_fernet_key, encrypt_password, decrypt_password) -/

/-- Hash algorithms the key derivation can be instantiated with; the
source uses SHA-256. -/
inductive HashAlg where
  | SHA256
deriving DecidableEq

/-- The hash the source passes to PBKDF2HMAC. -/
def fernetKdfHash : HashAlg := HashAlg.SHA256

/-- The key length in bytes the source requests from PBKDF2HMAC. -/
def fernetKdfLength : Nat := 32

/-- The iteration count the source passes to PBKDF2HMAC. -/
def fernetKdfIterations : Nat := 200000

/-- One 6-bit value to its URL-safe base64 alphabet byte. -/
def b64SixToByte (v : Nat) : Nat :=
  if v < 26 then 65 + v
  else if v < 52 then 71 + v
  else if v < 62 then v - 4
  else if v = 62 then 45
  else 95

/-- URL-safe base64 of a byte string, operating on 3-byte chunks with
padding bytes 61 (the ASCII code of the padding character). -/
def urlsafeB64Encode : List Nat → List Nat
  | [] => []
  | [b0] => [b64SixToByte (b0 / 4), b64SixToByte (b0 % 4 * 16), 61, 61]
  | [b0, b1] => [b64SixToByte (b0 / 4), b64SixToByte (b0 % 4 * 16 + b1 / 16), b64SixToByte (b1 % 16 * 4), 61]
  | b0 :: b1 :: b2 :: rest =>
      b64SixToByte (b0 / 4) :: b64SixToByte (b0 % 4 * 16 + b1 / 16) ::
      b64SixToByte (b1 % 16 * 4 + b2 / 64) :: b64SixToByte (b2 % 64) :: urlsafeB64Encode rest

/-- Source derive_fernet_key: run PBKDF2 (given as a capability taking
hash, length, salt, iterations and password bytes) and return the URL-safe
base64 encoding of the derived key, exactly as the source does. -/
def derive_fernet_key
    (pbkdf2 : HashAlg → Nat → List Nat → Nat → List Nat → List Nat)
    (utf8Enc : String → List Nat)
    (master_passphrase : String) (salt : List Nat) : List Nat :=
  urlsafeB64Encode (pbkdf2 fernetKdfHash fernetKdfLength salt fernetKdfIterations (utf8Enc master_passphrase))

/-- The encrypted blob dict the source builds: a standard base64 text of
the salt and the ASCII text of the Fernet token. -/
structure EncBlob where
  salt_b64 : String
  pw_token : String
deriving DecidableEq

/-- Source encrypt_password. The fresh 16-byte salt that os.urandom
produces is an explicit argument; base64, UTF-8, ASCII codecs and the
Fernet encryptor are capabilities. -/
def encrypt_password
    (pbkdf2 : HashAlg → Nat → List Nat → Nat → List Nat → List Nat)
    (utf8Enc : String → List Nat)
    (b64Enc : List Nat → String)
    (fernetEnc : List Nat → List Nat → List Nat)
    (asciiOfBytes : List Nat → String)
    (password master_passphrase : String) (salt : List Nat) : EncBlob :=
  let key := derive_fernet_key pbkdf2 utf8Enc master_passphrase salt
  let token := fernetEnc key (utf8Enc password)
  ⟨b64Enc salt, asciiOfBytes token⟩

/-- Source decrypt_password. Fernet decryption can fail (wrong key or
tampered token), so the decryptor capability returns an Option and the
whole function does too. -/
def decrypt_password
    (pbkdf2 : HashAlg → Nat → List Nat → Nat → List Nat → List Nat)
    (utf8Enc : String → List Nat)
    (utf8Dec : List Nat → String)
    (b64Dec : String → List Nat)
    (fernetDec : List Nat → List Nat → Option (List Nat))
    (bytesOfAscii : String → List Nat)
    (blob : EncBlob) (master_passphrase : String) : Option String :=
  let salt := b64Dec blob.salt_b64
  let key := derive_fernet_key pbkdf2 utf8Enc master_passphrase salt
  (fernetDec key (bytesOfAscii blob.pw_token)).map utf8Dec

/-! ## Discovery (detect_vrchat_osc_endpoint) -/

/-- The optional fields of the HOST_INFO metadata JSON the script reads. -/
structure HostInfo where
  NAME : Option String
  OSC_IP : Option String
  OSC_PORT : PyVal
deriving DecidableEq

/-- A metadata object with no fields, as produced when the HTTP query
fails and the source falls back to an empty dict. -/
def emptyHostInfo : HostInfo := ⟨Option.none, Option.none, PyVal.none⟩

/-- The candidate dict the source appends per resolved service. -/
structure Candidate where
  score : Int
  target_ip : String
  osc_port : Int
deriving DecidableEq

/-- Candidate construction and scoring, translated from the body of the
per-name loop in detect_vrchat_osc_endpoint. -/
def buildCandidate (name service_ip : String) (hinfo : HostInfo) : Candidate :=
  let host_name := (hinfo.NAME).getD ""
  let osc_ip := pyStrip ((hinfo.OSC_IP).getD "")
  let osc_port_val : Int :=
    match hinfo.OSC_PORT with
    | PyVal.none => 9000
    | v => (pyInt v).getD 9000
  let target_ip0 := if osc_ip = "" then service_ip else osc_ip
  let target_ip :=
    if strStartsWith target_ip0 "127." && !(strStartsWith service_ip "127.")
    then service_ip else target_ip0
  let score : Int :=
    (if strContains (pyLower name) "vrchat" then 100 else 0) +
    (if strContains (pyLower host_name) "vrchat" then 80 else 0) +
    (if !(strStartsWith target_ip "127.") then 40 else 0)
  ⟨score, target_ip, osc_port_val⟩

/-- Byte-wise comparison of two character lists, the order Python sorted
uses for str values (code-point lexicographic, less-or-equal). -/
def charsLeb : List Char → List Char → Bool
  | [], _ => true
  | _ :: _, [] => false
  | a :: as, b :: bs =>
      if a.toNat < b.toNat then true
      else if b.toNat < a.toNat then false
      else charsLeb as bs

/-- Less-or-equal on strings by code points. -/
def strLeb (a b : String) : Bool := charsLeb a.data b.data

/-- Insert into a sorted list of strings. -/
def orderedInsertStr (x : String) : List String → List String
  | [] => [x]
  | y :: ys => if strLeb x y then x :: y :: ys else y :: orderedInsertStr x ys

/-- Insertion sort of strings, modelling Python sorted. -/
def insertionSortStr : List String → List String
  | [] => []
  | x :: xs => orderedInsertStr x (insertionSortStr xs)

/-- Collector.snapshot over the browse events: the names form a set and
the snapshot returns them sorted, so order and multiplicity of arrival
are forgotten. -/
def snapshotOf (events : List String) : List String :=
  insertionSortStr events.dedup

/-- The candidate list detect_vrchat_osc_endpoint builds: one candidate
per snapshot name that resolves to a service IP, in snapshot order. The
environment maps an instance name to its resolved IPv4 and metadata, or
none when resolution fails or yields no IPv4 (the source skips those). -/
def candidatesOf (env : String → Option (String × HostInfo)) (events : List String) : List Candidate :=
  (snapshotOf events).filterMap (fun n => (env n).map (fun pr => buildCandidate n pr.1 pr.2))

/-- One step of the Python max scan: replace the best only on a strictly
greater key, so the first maximum wins. -/
def pyMaxStep (best x : Candidate) : Candidate :=
  if best.score < x.score then x else best

/-- Python max(candidates, key=score), none on an empty list. -/
def pyMaxByScore : List Candidate → Option Candidate
  | [] => Option.none
  | c :: cs => some (cs.foldl pyMaxStep c)

/-- Source detect_vrchat_osc_endpoint: select the best candidate and
return its target IP and declared OSC port, or none when there is no
candidate at all. -/
def detect_vrchat_osc_endpoint (env : String → Option (String × HostInfo)) (events : List String) :
    Option (String × Int) :=
  (pyMaxByScore (candidatesOf env events)).map (fun c => (c.target_ip, c.osc_port))

/-- Result of endpoint resolution: an endpoint, or the fatal SystemExit
message. -/
inductive ResolveResult where
  | ok (ip : String) (port : Int)
  | err (msg : String)
deriving DecidableEq

/-- Source resolve_quest_endpoint. The quest_ip argument may be absent
(None); a non-empty stripped value that is not a sentinel is returned as
is with the caller port, otherwise discovery runs on the given network
environment and only its address is kept. -/
def resolve_quest_endpoint (env : String → Option (String × HostInfo)) (events : List String)
    (quest_ip : Option String) (quest_port : Int) : ResolveResult :=
  if pyStrip (quest_ip.getD "") ≠ "" ∧
      pyLower (pyStrip (quest_ip.getD "")) ∉ (["auto", "oscquery"] : List String) then
    ResolveResult.ok (pyStrip (quest_ip.getD "")) quest_port
  else
    match detect_vrchat_osc_endpoint env events with
    | some (ip, _) => ResolveResult.ok ip quest_port
    | Option.none => ResolveResult.err "Could not auto-detect VRChat via OSCQuery."

/-- A two-candidate environment used in concrete discovery examples: the
name zzz resolves to 10.0.0.2 and the name aaa to 10.0.0.1, both with no
metadata. -/
def envTie : String → Option (String × HostInfo) :=
  fun n =>
    if n = "zzz" then some ("10.0.0.2", emptyHostInfo)
    else if n = "aaa" then some ("10.0.0.1", emptyHostInfo)
    else Option.none

/-- An environment in which nothing resolves. -/
def env0 : String → Option (String × HostInfo) := fun _ => Option.none

/-! ## Poll loop (cmd_run while-loop body) -/

/-- The debounce condition of the source: send when there is no previous
sent value, or the absolute change reaches min_delta. -/
def shouldSend (minDelta : Int) (last : Option Int) (bg : Int) : Bool :=
  match last with
  | Option.none => true
  | some l => decide (minDelta ≤ abs (bg - l))

/-- What one poll cycle can observe: a successful fetch of a value, an
exception before the send call (from fetch, normalisation or glyph
lookup), or an exception raised by the send call itself. -/
inductive CycleOutcome where
  | ok (bg : Int)
  | failBeforeSend
  | failAtSend (bg : Int)
deriving DecidableEq

/-- One iteration of the try block of cmd_run: the returned pair is the
new last_bg and whether the send call returned. Every exception lands in
the except arm, which leaves last_bg untouched; last_bg is assigned only
on the line after a send that returned. -/
def runCycle (minDelta : Int) (last : Option Int) : CycleOutcome → Option Int × Bool
  | CycleOutcome.ok bg =>
      if shouldSend minDelta last bg then (some bg, true) else (last, false)
  | CycleOutcome.failBeforeSend => (last, false)
  | CycleOutcome.failAtSend _ => (last, false)

/-- The while-loop of cmd_run over a finite trace of cycle outcomes:
every cycle runs (none terminates the loop), producing the per-cycle sent
flags and the final last_bg. -/
def runLoop (minDelta : Int) (last : Option Int) : List CycleOutcome → List Bool × Option Int
  | [] => ([], last)
  | ev :: rest =>
      let step := runCycle minDelta last ev
      let next := runLoop minDelta step.1 rest
      (step.2 :: next.1, next.2)

/-- The loop over a trace of successfully fetched values only. -/
def pollRun (minDelta : Int) (last : Option Int) (vals : List Int) : List Bool × Option Int :=
  runLoop minDelta last (vals.map CycleOutcome.ok)

/-- Modelled from the spec: the debounce invariant stated in its own
words, for comparison with the loop above. A send flag sequence satisfies
it iff each cycle sends exactly when it is the first reading or the change
from the last sent value reaches the threshold, the tracked value is
updated to the cycle value exactly on the cycles that send, and the final
tracked value is the given one. -/
def debounceSpecHolds (d : Int) (last : Option Int) : List Int → List Bool → Option Int → Prop
  | [], sends, fin => sends = [] ∧ fin = last
  | _ :: _, [], _ => False
  | bg :: rest, s :: tl, fin =>
      (s = true ↔ (last = Option.none ∨ ∃ l, last = some l ∧ d ≤ abs (bg - l))) ∧
      debounceSpecHolds d (if s then some bg else last) rest tl fin

/-! ## Concrete codec instances used by witnesses -/

/-- Unary encoding of one byte for the witness codec. -/
def natToTallies (n : Nat) : List Char := List.replicate n 'a'

/-- Injective encoding of a byte string into characters, used to witness
the codec round-trip hypotheses. -/
def talliesEncodeBytes : List Nat → List Char
  | [] => []
  | n :: rest => natToTallies n ++ 'b' :: talliesEncodeBytes rest

/-- Inverse of talliesEncodeBytes. -/
def talliesDecodeChars (acc : Nat) : List Char → List Nat
  | [] => []
  | c :: rest => if c = 'b' then acc :: talliesDecodeChars 0 rest else talliesDecodeChars (acc + 1) rest

/-- Witness byte-to-text codec, encoding direction. -/
def talliesStr (bs : List Nat) : String := String.mk (talliesEncodeBytes bs)

/-- Witness byte-to-text codec, decoding direction. -/
def talliesBytes (s : String) : List Nat := talliesDecodeChars 0 s.data

/-- Witness text-to-byte codec: characters to their code points. -/
def codesOfStr (s : String) : List Nat := s.data.map Char.toNat

/-- Witness byte-to-text codec inverse to codesOfStr. -/
def strOfCodes (bs : List Nat) : String := String.mk (bs.map Char.ofNat)

/-- Witness Fernet encryptor: keep the message. -/
def fernetEncId (_key msg : List Nat) : List Nat := msg

/-- Witness Fernet decryptor, inverse to fernetEncId. -/
def fernetDecId (_key : List Nat) (token : List Nat) : Option (List Nat) := some token

/-- Witness PBKDF2: a zero key of the requested length. -/
def pbkdf2Stub (_h : HashAlg) (len : Nat) (_salt : List Nat) (_iters : Nat) (_pw : List Nat) : List Nat :=
  List.replicate len 0

/-! ## Helper lemmas -/

theorem arrow_eq_glyph (s : String) : arrow (some s) = trendGlyph (canonTrend s) := by
  by_cases h : s = ""
  · subst h; rfl
  · simp [arrow, h]

theorem pollRun_cons (d : Int) (last : Option Int) (bg : Int) (vals : List Int) :
    pollRun d last (bg :: vals) =
      (shouldSend d last bg :: (pollRun d (if shouldSend d last bg then some bg else last) vals).1,
       (pollRun d (if shouldSend d last bg then some bg else last) vals).2) := by
  by_cases h : shouldSend d last bg <;> simp [pollRun, runLoop, runCycle, h]

theorem shouldSend_zero (last : Option Int) (bg : Int) : shouldSend 0 last bg = true := by
  cases last <;> simp [shouldSend, abs_nonneg]

theorem debounce_spec_of_pollRun (d : Int) (vals : List Int) : ∀ last : Option Int,
    debounceSpecHolds d last vals (pollRun d last vals).1 (pollRun d last vals).2 := by
  induction vals with
  | nil => intro last; exact ⟨rfl, rfl⟩
  | cons bg rest ih =>
      intro last
      rw [pollRun_cons]
      refine ⟨?_, ih _⟩
      cases last with
      | none => simp [shouldSend]
      | some l => simp [shouldSend]

theorem resolve_concrete_helper (env : String → Option (String × HostInfo)) (events : List String)
    (quest_ip : Option String) (quest_port : Int)
    (hne : pyStrip (quest_ip.getD "") ≠ "")
    (hs : pyLower (pyStrip (quest_ip.getD "")) ∉ (["auto", "oscquery"] : List String)) :
    resolve_quest_endpoint env events quest_ip quest_port =
      ResolveResult.ok (pyStrip (quest_ip.getD "")) quest_port := by
  unfold resolve_quest_endpoint
  rw [if_pos ⟨hne, hs⟩]

theorem urlsafeB64Encode_length (bs : List Nat) :
    (urlsafeB64Encode bs).length = 4 * ((bs.length + 2) / 3) := by
  induction bs using urlsafeB64Encode.induct
  all_goals simp [urlsafeB64Encode, *]
  all_goals omega

theorem talliesDecode_append (n acc : Nat) (rest : List Char) :
    talliesDecodeChars acc (natToTallies n ++ 'b' :: rest) = (acc + n) :: talliesDecodeChars 0 rest := by
  induction n generalizing acc with
  | zero => simp [natToTallies, talliesDecodeChars]
  | succ k ih =>
      rw [show natToTallies (k + 1) = 'a' :: natToTallies k from by
            simp [natToTallies, List.replicate_succ]]
      simp only [List.cons_append, talliesDecodeChars]
      rw [if_neg (by decide)]
      show talliesDecodeChars (acc + 1) (natToTallies k ++ 'b' :: rest) =
        (acc + (k + 1)) :: talliesDecodeChars 0 rest
      rw [ih (acc + 1), show acc + 1 + k = acc + (k + 1) from by omega]

theorem tallies_roundtrip (bs : List Nat) : talliesBytes (talliesStr bs) = bs := by
  show talliesDecodeChars 0 (talliesEncodeBytes bs) = bs
  induction bs with
  | nil => rfl
  | cons n rest ih =>
      show talliesDecodeChars 0 (natToTallies n ++ 'b' :: talliesEncodeBytes rest) = n :: rest
      rw [talliesDecode_append]
      simp [ih]

theorem codes_roundtrip (s : String) : strOfCodes (codesOfStr s) = s := by
  unfold strOfCodes codesOfStr
  rw [List.map_map]
  have h : (Char.ofNat ∘ Char.toNat) = id := funext Char.ofNat_toNat
  rw [h, List.map_id]

/-! ## Claim theorems -/

/-- C9: the trend-to-glyph mapping is total over all strings and over an
absent trend, is case- and separator-insensitive (any two strings with the
same canonical form map to the same glyph; SINGLE_UP, singleUp and
single-up all map to the up arrow), maps each of the seven canonical trend
names to exactly one glyph, and maps an absent, empty or unrecognized
trend to the empty string. -/
theorem arrow_total_insensitive :
    (∀ s t, canonTrend s = canonTrend t → arrow (some s) = arrow (some t)) ∧
    (arrow Option.none = "" ∧ arrow (some "") = "" ∧
     arrow (some "SINGLE_UP") = "↑" ∧ arrow (some "singleUp") = "↑" ∧ arrow (some "single-up") = "↑" ∧
     arrow (some "double_up") = "↑↑" ∧ arrow (some "single_up") = "↑" ∧
     arrow (some "forty_five_up") = "↗" ∧ arrow (some "flat") = "→" ∧
     arrow (some "forty_five_down") = "↘" ∧ arrow (some "single_down") = "↓" ∧
     arrow (some "double_down") = "↓↓") ∧
    (∀ s, canonTrend s ∉ (["doubleup", "singleup", "fortyfiveup", "flat", "fortyfivedown",
        "singledown", "doubledown"] : List String) → arrow (some s) = "") := by
  refine ⟨?_, by decide, ?_⟩
  · intro s t h
    rw [arrow_eq_glyph, arrow_eq_glyph, h]
  · intro s h
    rw [arrow_eq_glyph]
    unfold trendGlyph
    split <;> simp_all

theorem arrow_total_insensitive_witness :
    arrow (some "SINGLE-up") = arrow (some "single_UP") ∧ arrow (some "rising fast") = "" :=
  ⟨arrow_total_insensitive.1 "SINGLE-up" "single_UP" (by decide),
   arrow_total_insensitive.2.2 "rising fast" (by decide)⟩

/-- C4 counterexample: with any PBKDF2 honouring the requested length, the
source key-derivation function returns 44 bytes, not 32; concretely, the
stub PBKDF2 returns 32 bytes here and the derived key is 44 bytes. -/
theorem derive_fernet_key_len_counterexample :
    (pbkdf2Stub fernetKdfHash fernetKdfLength (List.replicate 16 0) fernetKdfIterations
        (codesOfStr "passphrase")).length = 32 ∧
    (derive_fernet_key pbkdf2Stub codesOfStr "passphrase" (List.replicate 16 0)).length = 44 ∧
    (44 : Nat) ≠ 32 := by
  refine ⟨by decide, by decide, by decide⟩

/-- C4 (amended): for any PBKDF2 capability that returns keys of the
requested length, derive_fernet_key is a pure function of passphrase and
salt computed with the SHA-256 hash, a 32-byte requested key length and
200000 iterations (at least the 200000 the claim demands), and it returns
the URL-safe base64 encoding of that key, which is 44 bytes long. -/
theorem derive_fernet_key_amended
    (pbkdf2 : HashAlg → Nat → List Nat → Nat → List Nat → List Nat)
    (utf8Enc : String → List Nat)
    (hlen : ∀ h len salt it pw, (pbkdf2 h len salt it pw).length = len)
    (mp : String) (salt : List Nat) :
    (derive_fernet_key pbkdf2 utf8Enc mp salt).length = 44 ∧
    fernetKdfLength = 32 ∧ 200000 ≤ fernetKdfIterations ∧ fernetKdfHash = HashAlg.SHA256 := by
  refine ⟨?_, rfl, by decide, rfl⟩
  unfold derive_fernet_key
  rw [urlsafeB64Encode_length, hlen]
  decide

theorem derive_fernet_key_amended_witness :
    (derive_fernet_key pbkdf2Stub codesOfStr "pw" [0, 1, 2]).length = 44 ∧
    fernetKdfLength = 32 ∧ 200000 ≤ fernetKdfIterations ∧ fernetKdfHash = HashAlg.SHA256 :=
  derive_fernet_key_amended pbkdf2Stub codesOfStr
    (fun _ len _ _ _ => by simp [pbkdf2Stub]) "pw" [0, 1, 2]

/-- C6 counterexample: the empty requested address is not one of the
sentinels auto or oscquery, yet resolution does not return it with the
requested port; it runs discovery and returns the discovered address. -/
theorem resolve_concrete_counterexample :
    pyLower "" ≠ "auto" ∧ pyLower "" ≠ "oscquery" ∧
    resolve_quest_endpoint envTie ["zzz", "aaa"] (some "") 9005 = ResolveResult.ok "10.0.0.1" 9005 ∧
    ResolveResult.ok "10.0.0.1" 9005 ≠ ResolveResult.ok "" 9005 := by
  refine ⟨by decide, by decide, by decide, by decide⟩

/-- C6 (amended): for every requested address whose whitespace-stripped
form is non-empty and, lower-cased, is neither auto nor oscquery, resolve
returns the stripped requested address paired with the requested port, for
every discovery environment alike, so discovery is never consulted. -/
theorem resolve_concrete_amended (env : String → Option (String × HostInfo)) (events : List String)
    (quest_ip : Option String) (quest_port : Int)
    (hne : pyStrip (quest_ip.getD "") ≠ "")
    (hs : pyLower (pyStrip (quest_ip.getD "")) ∉ (["auto", "oscquery"] : List String)) :
    resolve_quest_endpoint env events quest_ip quest_port =
      ResolveResult.ok (pyStrip (quest_ip.getD "")) quest_port :=
  resolve_concrete_helper env events quest_ip quest_port hne hs

theorem resolve_concrete_amended_witness :
    resolve_quest_endpoint envTie ["zzz", "aaa"] (some " 192.168.1.7 ") 9001 =
      ResolveResult.ok "192.168.1.7" 9001 :=
  resolve_concrete_amended envTie ["zzz", "aaa"] (some " 192.168.1.7 ") 9001 (by decide) (by decide)

/-- C7: whenever resolve_quest_endpoint succeeds, the port of the returned
endpoint is the caller-supplied requested port; the port found in candidate
metadata never reaches the returned endpoint. -/
theorem resolve_port_passthrough (env : String → Option (String × HostInfo)) (events : List String)
    (quest_ip : Option String) (quest_port : Int) (ip : String) (p : Int)
    (h : resolve_quest_endpoint env events quest_ip quest_port = ResolveResult.ok ip p) :
    p = quest_port := by
  unfold resolve_quest_endpoint at h
  split at h
  · injection h with h1 h2
    exact h2.symm
  · split at h
    · injection h with h1 h2
      exact h2.symm
    · exact absurd h (by simp)

theorem resolve_port_passthrough_witness : (9001 : Int) = 9001 :=
  resolve_port_passthrough env0 [] (some "10.0.0.9") 9001 "10.0.0.9" 9001 (by decide)

/-- C10: requested addresses that are absent, empty or all whitespace are
treated exactly like the auto sentinel, running discovery; and a concrete
non-sentinel requested address is returned in whitespace-stripped form with
the requested port. -/
theorem resolve_blank_runs_discovery :
    (∀ env events quest_ip quest_port, pyStrip ((quest_ip : Option String).getD "") = "" →
        resolve_quest_endpoint env events quest_ip quest_port =
          resolve_quest_endpoint env events (some "auto") quest_port) ∧
    (∀ env events s quest_port, pyStrip s ≠ "" →
        pyLower (pyStrip s) ∉ (["auto", "oscquery"] : List String) →
        resolve_quest_endpoint env events (some s) quest_port =
          ResolveResult.ok (pyStrip s) quest_port) := by
  constructor
  · intro env events quest_ip quest_port h
    unfold resolve_quest_endpoint
    rw [h, if_neg (by simp), if_neg (by decide)]
  · intro env events s quest_port hne hs
    exact resolve_concrete_helper env events (some s) quest_port hne hs

theorem resolve_blank_runs_discovery_witness :
    resolve_quest_endpoint envTie ["zzz", "aaa"] (some "   ") 9000 =
      resolve_quest_endpoint envTie ["zzz", "aaa"] (some "auto") 9000 ∧
    resolve_quest_endpoint env0 [] (some " 1.2.3.4 ") 9000 = ResolveResult.ok (pyStrip " 1.2.3.4 ") 9000 :=
  ⟨resolve_blank_runs_discovery.1 envTie ["zzz", "aaa"] (some "   ") 9000 (by decide),
   resolve_blank_runs_discovery.2 env0 [] " 1.2.3.4 " 9000 (by decide) (by decide)⟩

/-- C8 counterexample: a whitespace-only OSC_IP metadata field is a
non-empty string, yet the chosen IP is the resolved service IP, not that
field, because the source strips the field before testing emptiness. -/
theorem candidate_whitespace_counterexample :
    (buildCandidate "svc" "10.0.0.7" ⟨Option.none, some " ", PyVal.none⟩).target_ip = "10.0.0.7" ∧
    (" " : String) ≠ "" ∧ ("10.0.0.7" : String) ≠ " " := by
  refine ⟨by decide, by decide, by decide⟩

/-- C8 (amended): the declared OSC port comes from metadata field OSC_PORT
and defaults to 9000 when the field is absent or does not convert to an
integer; the chosen IP is the whitespace-stripped OSC_IP when that strips
to a non-empty string, else the resolved service IP; and a loopback chosen
IP is replaced by the service IP when the latter is not loopback. -/
theorem candidate_build_amended :
    (∀ n ip hinfo, hinfo.OSC_PORT = PyVal.none → (buildCandidate n ip hinfo).osc_port = 9000) ∧
    (∀ n ip hinfo, hinfo.OSC_PORT ≠ PyVal.none → pyInt hinfo.OSC_PORT = Option.none →
        (buildCandidate n ip hinfo).osc_port = 9000) ∧
    (∀ n ip hinfo k, pyInt hinfo.OSC_PORT = some k → (buildCandidate n ip hinfo).osc_port = k) ∧
    (∀ n ip hinfo, pyStrip ((hinfo : HostInfo).OSC_IP.getD "") = "" →
        (buildCandidate n ip hinfo).target_ip = ip) ∧
    (∀ n ip hinfo, pyStrip ((hinfo : HostInfo).OSC_IP.getD "") ≠ "" →
        (buildCandidate n ip hinfo).target_ip =
          (if strStartsWith (pyStrip (hinfo.OSC_IP.getD "")) "127." && !(strStartsWith ip "127.")
           then ip else pyStrip (hinfo.OSC_IP.getD ""))) := by
  refine ⟨?_, ?_, ?_, ?_, ?_⟩
  · intro n ip hinfo h
    simp [buildCandidate, h]
  · intro n ip hinfo hne h
    rcases hinfo with ⟨hn, hip, hport⟩
    cases hport <;> simp_all [buildCandidate, pyInt]
  · intro n ip hinfo k h
    rcases hinfo with ⟨hn, hip, hport⟩
    cases hport <;> simp_all [buildCandidate, pyInt]
  · intro n ip hinfo h
    simp [buildCandidate, h]
  · intro n ip hinfo h
    simp [buildCandidate, h]

theorem candidate_build_amended_witness :
    (buildCandidate "svc" "10.0.0.8" ⟨Option.none, Option.none, PyVal.none⟩).osc_port = 9000 ∧
    (buildCandidate "svc" "10.0.0.8" ⟨Option.none, some " 1.2.3.4 ", PyVal.str "8001"⟩).osc_port = 8001 ∧
    (buildCandidate "svc" "10.0.0.8" ⟨Option.none, some " 1.2.3.4 ", PyVal.none⟩).target_ip =
      (if strStartsWith (pyStrip ((some " 1.2.3.4 " : Option String).getD "")) "127." &&
          !(strStartsWith "10.0.0.8" "127.")
       then "10.0.0.8" else pyStrip ((some " 1.2.3.4 " : Option String).getD "")) :=
  ⟨candidate_build_amended.1 "svc" "10.0.0.8" ⟨Option.none, Option.none, PyVal.none⟩ rfl,
   candidate_build_amended.2.2.1 "svc" "10.0.0.8" ⟨Option.none, some " 1.2.3.4 ", PyVal.str "8001"⟩
     8001 (by decide),
   candidate_build_amended.2.2.2.2 "svc" "10.0.0.8" ⟨Option.none, some " 1.2.3.4 ", PyVal.none⟩
     (by decide)⟩

/-- C1: over any sequence of successfully fetched values and any
threshold, the poll loop sends exactly when there is no previously sent
value or the absolute change from it reaches min_delta, and the tracked
last sent value is updated to the cycle value exactly on sending cycles
(the debounce specification predicate); on values 100, 101, 105, 104 with
threshold 2 the sends are exactly the first and the third and the final
tracked value is 105, and with threshold 0 every cycle sends. -/
theorem cmd_run_debounce :
    (∀ d last vals, debounceSpecHolds d last vals (pollRun d last vals).1 (pollRun d last vals).2) ∧
    pollRun 2 Option.none [100, 101, 105, 104] = ([true, false, true, false], some 105) ∧
    (∀ last vals, (pollRun 0 last vals).1 = List.replicate vals.length true) := by
  refine ⟨fun d last vals => debounce_spec_of_pollRun d vals last, by decide, ?_⟩
  intro last vals
  induction vals generalizing last with
  | nil => rfl
  | cons bg rest ih =>
      rw [pollRun_cons, shouldSend_zero]
      simp [ih, List.replicate_succ]

/-- C2: any cycle that fails, whether before or at the send call, leaves
the tracked last sent value exactly as it was and sends nothing; the loop
runs one cycle per outcome of the trace without terminating; the tracked
value changes only when the send call has returned (a cycle that does not
send keeps the state, a sending cycle sets it to the fetched value); and a
concrete trace with a failed fetch and a failed send shows the later
cycles still running against the pre-failure state. -/
theorem cmd_run_cycle_isolation :
    (∀ d last ev, (ev = CycleOutcome.failBeforeSend ∨ ∃ bg, ev = CycleOutcome.failAtSend bg) →
        runCycle d last ev = (last, false)) ∧
    (∀ d last evs, (runLoop d last evs).1.length = evs.length) ∧
    (∀ d last ev, (runCycle d last ev).2 = false → (runCycle d last ev).1 = last) ∧
    (∀ d last bg, (runCycle d last (CycleOutcome.ok bg)).2 = true →
        (runCycle d last (CycleOutcome.ok bg)).1 = some bg) ∧
    runLoop 2 Option.none
        [CycleOutcome.ok 100, CycleOutcome.failBeforeSend, CycleOutcome.failAtSend 120,
         CycleOutcome.ok 105] =
      ([true, false, false, true], some 105) := by
  refine ⟨?_, ?_, ?_, ?_, by decide⟩
  · intro d last ev h
    rcases h with h | ⟨bg, h⟩ <;> subst h <;> rfl
  · intro d last evs
    induction evs generalizing last with
    | nil => rfl
    | cons ev rest ih => simp [runLoop, ih]
  · intro d last ev h
    cases ev with
    | ok bg =>
        by_cases hs : shouldSend d last bg
        · simp [runCycle, hs] at h
        · simp [runCycle, hs]
    | failBeforeSend => rfl
    | failAtSend bg => rfl
  · intro d last bg h
    by_cases hs : shouldSend d last bg
    · simp [runCycle, hs]
    · simp [runCycle, hs] at h

theorem cmd_run_cycle_isolation_witness :
    runCycle 2 (some 7) CycleOutcome.failBeforeSend = (some 7, false) ∧
    runCycle 2 (some 7) (CycleOutcome.failAtSend 50) = (some 7, false) :=
  ⟨cmd_run_cycle_isolation.1 2 (some 7) CycleOutcome.failBeforeSend (Or.inl rfl),
   cmd_run_cycle_isolation.1 2 (some 7) (CycleOutcome.failAtSend 50) (Or.inr ⟨50, rfl⟩)⟩

/-- C3: for every passphrase, secret and salt, and any base64, ASCII and
UTF-8 codecs and Fernet pair satisfying their round-trip contracts,
decrypting the blob produced by encrypt_password under the same passphrase
returns the secret exactly. -/
theorem encrypt_decrypt_roundtrip
    (pbkdf2 : HashAlg → Nat → List Nat → Nat → List Nat → List Nat)
    (utf8Enc : String → List Nat) (utf8Dec : List Nat → String)
    (b64Enc : List Nat → String) (b64Dec : String → List Nat)
    (fernetEnc : List Nat → List Nat → List Nat)
    (fernetDec : List Nat → List Nat → Option (List Nat))
    (asciiOfBytes : List Nat → String) (bytesOfAscii : String → List Nat)
    (hb64 : ∀ bs, b64Dec (b64Enc bs) = bs)
    (hascii : ∀ bs, bytesOfAscii (asciiOfBytes bs) = bs)
    (hutf8 : ∀ s, utf8Dec (utf8Enc s) = s)
    (hfernet : ∀ key msg, fernetDec key (fernetEnc key msg) = some msg)
    (password master_passphrase : String) (salt : List Nat) :
    decrypt_password pbkdf2 utf8Enc utf8Dec b64Dec fernetDec bytesOfAscii
      (encrypt_password pbkdf2 utf8Enc b64Enc fernetEnc asciiOfBytes
        password master_passphrase salt)
      master_passphrase = some password := by
  unfold encrypt_password decrypt_password
  simp [hb64, hascii, hfernet, hutf8]

theorem encrypt_decrypt_roundtrip_witness :
    decrypt_password pbkdf2Stub codesOfStr strOfCodes talliesBytes fernetDecId talliesBytes
      (encrypt_password pbkdf2Stub codesOfStr talliesStr fernetEncId talliesStr
        "hunter2" "correct horse" [9, 8, 7])
      "correct horse" = some "hunter2" :=
  encrypt_decrypt_roundtrip pbkdf2Stub codesOfStr strOfCodes talliesStr talliesBytes
    fernetEncId fernetDecId talliesStr talliesBytes
    tallies_roundtrip tallies_roundtrip codes_roundtrip (fun _ _ => rfl)
    "hunter2" "correct horse" [9, 8, 7]

theorem charsLeb_total (l1 l2 : List Char) : charsLeb l1 l2 = true ∨ charsLeb l2 l1 = true := by
  induction l1 generalizing l2 with
  | nil => exact Or.inl rfl
  | cons a as ih =>
      cases l2 with
      | nil => exact Or.inr rfl
      | cons b bs =>
          by_cases h1 : a.toNat < b.toNat
          · exact Or.inl (by simp [charsLeb, h1])
          · by_cases h2 : b.toNat < a.toNat
            · exact Or.inr (by simp [charsLeb, h2])
            · rcases ih bs with h | h
              · exact Or.inl (by simp [charsLeb, h1, h2, h])
              · exact Or.inr (by simp [charsLeb, h1, h2, h])

theorem charsLeb_trans : ∀ (l1 l2 l3 : List Char), charsLeb l1 l2 = true →
    charsLeb l2 l3 = true → charsLeb l1 l3 = true
  | [], _, _, _, _ => rfl
  | _ :: _, [], _, h12, _ => by simp [charsLeb] at h12
  | _ :: _, _ :: _, [], _, h23 => by simp [charsLeb] at h23
  | a :: as, b :: bs, c :: cs, h12, h23 => by
      simp only [charsLeb] at h12 h23 ⊢
      split_ifs at h12 h23 ⊢ <;>
        first
          | rfl
          | omega
          | exact charsLeb_trans as bs cs h12 h23

theorem strLeb_total (a b : String) : strLeb a b = true ∨ strLeb b a = true :=
  charsLeb_total a.data b.data

theorem strLeb_trans (a b c : String) (h1 : strLeb a b = true) (h2 : strLeb b c = true) :
    strLeb a c = true :=
  charsLeb_trans a.data b.data c.data h1 h2

theorem orderedInsertStr_perm (x : String) (l : List String) :
    List.Perm (orderedInsertStr x l) (x :: l) := by
  induction l with
  | nil => exact List.Perm.refl _
  | cons y ys ih =>
      by_cases h : strLeb x y = true
      · rw [orderedInsertStr, if_pos h]
      · rw [orderedInsertStr, if_neg h]
        exact List.Perm.trans (List.Perm.cons y ih) (List.Perm.swap x y ys)

theorem insertionSortStr_perm (l : List String) : List.Perm (insertionSortStr l) l := by
  induction l with
  | nil => exact List.Perm.refl _
  | cons x xs ih =>
      exact List.Perm.trans (orderedInsertStr_perm x (insertionSortStr xs)) (List.Perm.cons x ih)

theorem orderedInsertStr_sorted (x : String) (l : List String)
    (h : l.Pairwise (fun a b => strLeb a b = true)) :
    (orderedInsertStr x l).Pairwise (fun a b => strLeb a b = true) := by
  induction l with
  | nil => simp [orderedInsertStr]
  | cons y ys ih =>
      rw [List.pairwise_cons] at h
      by_cases hxy : strLeb x y = true
      · rw [orderedInsertStr, if_pos hxy]
        refine List.Pairwise.cons ?_ (List.Pairwise.cons h.1 h.2)
        intro z hz
        rw [List.mem_cons] at hz
        rcases hz with hz | hz
        · subst hz; exact hxy
        · exact strLeb_trans x y z hxy (h.1 z hz)
      · rw [orderedInsertStr, if_neg hxy]
        refine List.Pairwise.cons ?_ (ih h.2)
        intro z hz
        have hz2 : z ∈ x :: ys := (orderedInsertStr_perm x ys).mem_iff.mp hz
        rw [List.mem_cons] at hz2
        rcases hz2 with hz2 | hz2
        · rw [hz2]
          rcases strLeb_total x y with ht | ht
          · exact absurd ht hxy
          · exact ht
        · exact h.1 z hz2

theorem insertionSortStr_sorted (l : List String) :
    (insertionSortStr l).Pairwise (fun a b => strLeb a b = true) := by
  induction l with
  | nil => simp [insertionSortStr]
  | cons x xs ih => exact orderedInsertStr_sorted x (insertionSortStr xs) ih

theorem snapshotOf_nodup (events : List String) : (snapshotOf events).Nodup :=
  ((insertionSortStr_perm events.dedup).nodup_iff).mpr (List.nodup_dedup events)

theorem pyMax_foldl_spec : ∀ (cs : List Candidate) (c : Candidate),
    (∀ x ∈ c :: cs, x.score ≤ (cs.foldl pyMaxStep c).score) ∧
    ∃ pre suf, c :: cs = pre ++ (cs.foldl pyMaxStep c) :: suf ∧
      ∀ p ∈ pre, p.score < (cs.foldl pyMaxStep c).score := by
  intro cs
  induction cs with
  | nil =>
      intro c
      constructor
      · intro x hx
        rw [List.mem_singleton] at hx
        subst hx
        exact le_refl _
      · exact ⟨[], [], rfl, by simp⟩
  | cons y ys ih =>
      intro c
      simp only [List.foldl_cons]
      rcases ih (pyMaxStep c y) with ⟨hbound, pre, suf, hdecomp, hpre⟩
      by_cases hcy : c.score < y.score
      · have hstep : pyMaxStep c y = y := by simp [pyMaxStep, hcy]
        rw [hstep] at hbound hdecomp hpre ⊢
        have hy : y.score ≤ (ys.foldl pyMaxStep y).score := hbound y (List.mem_cons_self y ys)
        constructor
        · intro x hx
          rw [List.mem_cons] at hx
          rcases hx with hx | hx
          · subst hx
            exact le_of_lt (lt_of_lt_of_le hcy hy)
          · exact hbound x hx
        · refine ⟨c :: pre, suf, ?_, ?_⟩
          · rw [List.cons_append, ← hdecomp]
          · intro p hp
            rw [List.mem_cons] at hp
            rcases hp with hp | hp
            · subst hp
              exact lt_of_lt_of_le hcy hy
            · exact hpre p hp
      · have hstep : pyMaxStep c y = c := by simp [pyMaxStep, hcy]
        rw [hstep] at hbound hdecomp hpre ⊢
        have hcb : c.score ≤ (ys.foldl pyMaxStep c).score := hbound c (List.mem_cons_self c ys)
        constructor
        · intro x hx
          rw [List.mem_cons] at hx
          rcases hx with hx | hx
          · subst hx
            exact hcb
          · rw [List.mem_cons] at hx
            rcases hx with hx | hx
            · subst hx
              exact le_trans (not_lt.mp hcy) hcb
            · exact hbound x (List.mem_cons_of_mem c hx)
        · cases pre with
          | nil =>
              rw [List.nil_append] at hdecomp
              injection hdecomp with h1 h2
              refine ⟨[], y :: ys, ?_, by simp⟩
              rw [List.nil_append, ← h1]
          | cons p0 ptl =>
              rw [List.cons_append] at hdecomp
              injection hdecomp with h1 h2
              have hc : c.score < (ys.foldl pyMaxStep c).score := by
                have hp0 := hpre p0 (List.mem_cons_self p0 ptl)
                rw [← h1] at hp0
                exact hp0
              refine ⟨c :: y :: ptl, suf, ?_, ?_⟩
              · rw [List.cons_append, List.cons_append, ← h2]
              · intro p hp
                rw [List.mem_cons] at hp
                rcases hp with hp | hp
                · subst hp
                  exact hc
                · rw [List.mem_cons] at hp
                  rcases hp with hp | hp
                  · subst hp
                    exact lt_of_le_of_lt (not_lt.mp hcy) hc
                  · exact hpre p (List.mem_cons_of_mem p0 hp)

/-- C5 counterexample: with two tying candidates whose names arrive in
the order zzz then aaa, the first-seen candidate is the one named zzz, at
address 10.0.0.2, yet discovery selects the address 10.0.0.1 of the
candidate named aaa, because the snapshot sorts the collected names;
arrival order does not break the tie. -/
theorem discovery_tiebreak_counterexample :
    (["zzz", "aaa"] : List String).head? = some "zzz" ∧
    envTie "zzz" = some ("10.0.0.2", emptyHostInfo) ∧
    (buildCandidate "zzz" "10.0.0.2" emptyHostInfo).target_ip = "10.0.0.2" ∧
    (candidatesOf envTie ["zzz", "aaa"]).map Candidate.score = [40, 40] ∧
    detect_vrchat_osc_endpoint envTie ["zzz", "aaa"] = some ("10.0.0.1", 9000) ∧
    ("10.0.0.1" : String) ≠ "10.0.0.2" := by
  refine ⟨rfl, by decide, by decide, by decide, by decide, by decide⟩

/-- C5 (amended): a candidate scores the unweighted sum of 100 when its
instance name contains vrchat case-insensitively, 80 when the declared
host name does, and 40 when the chosen IP does not start with the loopback
prefix; the stated concrete examples score 140 and 0; the snapshot of
browse events is a sorted duplicate-free name list; the selected candidate
has the maximal score and is the first maximum of the candidate list in
sorted-name order, so a tie is broken in favour of the candidate with the
lexicographically least instance name rather than the first seen; in
particular the two arrival orders of the tying example select the same
endpoint. -/
theorem discovery_scoring_amended :
    (∀ name ip hinfo, (buildCandidate name ip hinfo).score =
        (if strContains (pyLower name) "vrchat" then 100 else 0) +
        (if strContains (pyLower ((hinfo : HostInfo).NAME.getD "")) "vrchat" then 80 else 0) +
        (if !(strStartsWith (buildCandidate name ip hinfo).target_ip "127.") then 40 else 0)) ∧
    ((buildCandidate "VRChat-Client-1" "192.168.1.5"
        ⟨some "Quest-HMD", Option.none, PyVal.none⟩).score = 140 ∧
     (buildCandidate "Display-Service" "127.0.0.1" emptyHostInfo).score = 0) ∧
    (∀ events, (snapshotOf events).Pairwise (fun a b => strLeb a b = true) ∧
        (snapshotOf events).Nodup) ∧
    (∀ env events c, pyMaxByScore (candidatesOf env events) = some c →
        (∀ x ∈ candidatesOf env events, x.score ≤ c.score) ∧
        ∃ pre suf, candidatesOf env events = pre ++ c :: suf ∧ ∀ p ∈ pre, p.score < c.score) ∧
    detect_vrchat_osc_endpoint envTie ["zzz", "aaa"] =
      detect_vrchat_osc_endpoint envTie ["aaa", "zzz"] := by
  refine ⟨?_, by refine ⟨by decide, by decide⟩, ?_, ?_, by decide⟩
  · intro name ip hinfo
    rfl
  · intro events
    exact ⟨insertionSortStr_sorted events.dedup, snapshotOf_nodup events⟩
  · intro env events c h
    cases hl : candidatesOf env events with
    | nil =>
        rw [hl] at h
        exact absurd h (by simp [pyMaxByScore])
    | cons c0 cs =>
        rw [hl] at h
        unfold pyMaxByScore at h
        injection h with h1
        subst h1
        rcases pyMax_foldl_spec cs c0 with ⟨hb, pre, suf, hd, hp⟩
        exact ⟨hb, pre, suf, hd, hp⟩

theorem discovery_scoring_amended_witness :
    (Candidate.mk 40 "10.0.0.2" 9000).score ≤ (Candidate.mk 40 "10.0.0.1" 9000).score :=
  (discovery_scoring_amended.2.2.2.1 envTie ["zzz", "aaa"] (Candidate.mk 40 "10.0.0.1" 9000)
      (by decide)).1 (Candidate.mk 40 "10.0.0.2" 9000) (by decide)

theorem cmd_run_debounce_witness :
    pollRun 2 Option.none [100, 101, 105, 104] = ([true, false, true, false], some 105) :=
  cmd_run_debounce.2.1
